import Mathlib

/-!
Shallow embedding of the core of `lease_manager.py` (kea-lease-manager):
the lease-log reconciliation (`read_lease_file`), the per-address history
(`get_lease_history`), the two-stage subnet-topology extraction
(`get_subnet_info`) and the reservation-fragment generator
(`generate_reservation_config`), together with proofs about the claims of
the specification.

Modelling conventions:
* A CSV row produced by `csv.DictReader` is a record of fields of type
  `Option (Option String)`: the outer `Option` is `none` when the column
  is absent from the CSV header (so `dict.get` falls back to its default),
  and the inner `Option` is `none` when the column exists in the header
  but the row is short, in which case `DictReader` fills the value with
  Python `None` (its `restval`).
* Python exceptions that the source catches are modelled with `Except`;
  the caught-and-converted results are ordinary values.
* `datetime.fromtimestamp(..).strftime(..)` is modelled by an abstract
  total formatter `fmt : Int → String` (a fixed local timezone); its
  platform-specific range limits are not modelled.
-/

namespace KeaLease

/-- Characters stripped by Python `int(str)` and matched by the regex
class `\s` (ASCII part). -/
def pyWs (c : Char) : Bool :=
  c == ' ' || c == '\t' || c == '\n' || c == '\r' || c == '\x0b' || c == '\x0c'

/-- Digit run as accepted by Python `int(str)` after the optional sign:
one digit, then digits with single underscores allowed between digits. -/
def pyDigits : List Char → Option Nat
  | [] => none
  | c :: cs => if c.isDigit then pyDigitsGo (c.toNat - 48) cs else none
where
  pyDigitsGo (acc : Nat) : List Char → Option Nat
    | [] => some acc
    | c :: cs =>
      if c.isDigit then pyDigitsGo (acc * 10 + (c.toNat - 48)) cs
      else if c == '_' then
        match cs with
        | c' :: cs' =>
          if c'.isDigit then pyDigitsGo (acc * 10 + (c'.toNat - 48)) cs' else none
        | [] => none
      else none

/-- Python `int(s)` on a string: strip surrounding whitespace, optional
sign, digit run; `none` models a raised `ValueError`. -/
def pyInt (s : String) : Option Int :=
  let cs := ((s.data.dropWhile pyWs).reverse.dropWhile pyWs).reverse
  match cs with
  | '+' :: rest => (pyDigits rest).map Int.ofNat
  | '-' :: rest => (pyDigits rest).map (fun n => -(Int.ofNat n))
  | rest => (pyDigits rest).map Int.ofNat

/-- Python truthiness of a value that is either a string or `None`. -/
def pyTruthy : Option String → Bool
  | none => false
  | some s => !(s == "")

/-- Python `str.lower` (ASCII; MAC addresses in practice are ASCII). -/
def pyLower (s : String) : String :=
  ⟨s.data.map Char.toLower⟩

/-- One `csv.DictReader` row restricted to the fields the program reads.
Outer `none`: the column is missing from the CSV header; inner `none`:
the column is in the header but this row is too short, so the value is
Python `None`. -/
structure Row where
  address : Option (Option String)
  hwaddr : Option (Option String)
  client_id : Option (Option String)
  valid_lifetime : Option (Option String)
  expire : Option (Option String)
  subnet_id : Option (Option String)
  hostname : Option (Option String)
  state : Option (Option String)
deriving DecidableEq, Repr

/-- Python `row.get(key, default)`: the default applies only when the key
is absent; a present key returns its stored value even when that value is
`None`. -/
def dget (f : Option (Option String)) (d : String) : Option String :=
  match f with
  | none => some d
  | some v => v

/-- Python `row.get(key)` (no default). -/
def dgetOpt (f : Option (Option String)) : Option String :=
  f.join

/-- The human expiry string computed from the raw `expire` value
(`if expire_ts and expire_ts != '0': ... except ... else 'No expiration'`).
`fmt` stands for `datetime.fromtimestamp(·).strftime('%Y-%m-%d %H:%M:%S')`
in a fixed local timezone. -/
def expireDisplayOf (fmt : Int → String) (ts : Option String) : String :=
  match ts with
  | some s =>
    if s ≠ "" ∧ s ≠ "0" then
      match pyInt s with
      | some n => fmt n
      | none => "Invalid date"
    else "No expiration"
  | none => "No expiration"

/-- The integer expiry (`expire_timestamp`) computed alongside the display
string: `0` when the raw field is empty, `"0"`, missing, or unparseable. -/
def expireEpochOf (ts : Option String) : Int :=
  match ts with
  | some s =>
    if s ≠ "" ∧ s ≠ "0" then
      match pyInt s with
      | some n => n
      | none => 0
    else 0
  | none => 0

/-- The `lease_data` dictionary built per retained row in
`read_lease_file`. -/
structure Lease where
  ip : String
  mac : Option String
  hostname : Option String
  expire : String
  expire_ts : Option String
  expire_timestamp : Int
  subnet_id : Option String
  client_id : Option String
  valid_lifetime : Option String
  state : Option String
deriving DecidableEq, Repr

/-- Python exceptions caught by the source's bare `except` clauses. -/
inductive PyExn where
  | valueError
  | typeError
deriving DecidableEq, Repr

/-- The error-as-value conditions the two lease readers return:
`fileNotFound` models the `"Lease file not found: ..."` string and
`readError` models `"Error reading lease file: ..."` carrying the
underlying exception. -/
inductive LeaseError where
  | fileNotFound
  | readError (cause : PyExn)
deriving DecidableEq, Repr

/-- The filter line of `read_lease_file`:
`if row.get('address') and row.get('state', '0') == '0':`. -/
def included (r : Row) : Bool :=
  pyTruthy (dgetOpt r.address) && (dget r.state "0" == some "0")

/-- The dictionary key `ip_address = row.get('address', '')`; on a row
that passes the filter this is the non-empty address string. -/
def rowIp (r : Row) : String :=
  (dget r.address "").getD ""

/-- The raw `expire_ts = row.get('expire', '0')` value (possibly Python
`None` on a short row). -/
def rowTs (r : Row) : Option String :=
  dget r.expire "0"

/-- Shorthand for the `expire_timestamp` a row yields. -/
def rowEpoch (r : Row) : Int :=
  expireEpochOf (rowTs r)

/-- The `lease_data` record built from one retained row. -/
def leaseData (fmt : Int → String) (r : Row) : Lease where
  ip := rowIp r
  mac := dget r.hwaddr ""
  hostname := dget r.hostname ""
  expire := expireDisplayOf fmt (rowTs r)
  expire_ts := rowTs r
  expire_timestamp := rowEpoch r
  subnet_id := dget r.subnet_id ""
  client_id := dget r.client_id ""
  valid_lifetime := dget r.valid_lifetime ""
  state := dget r.state "0"

/-- Lookup in a Python dict modelled as an association list. -/
def dictFind (d : List (String × α)) (k : String) : Option α :=
  (d.find? (fun p => p.1 == k)).map (fun p => p.2)

/-- Python dict assignment `d[k] = v`: updates the value in place when the
key exists (keeping its position) and appends otherwise.  (The dicts the
program builds are only ever constructed through this operation, so keys
are unique and replacing the first occurrence is exact.) -/
def dictSet : List (String × α) → String → α → List (String × α)
  | [], k, v => [(k, v)]
  | p :: ps, k, v => if p.1 == k then (k, v) :: ps else p :: dictSet ps k v

/-- One iteration of the reconciliation loop: keep the lease with the
strictly larger `expire_timestamp` for the row's address
(`if ip_address not in lease_dict or expire_timestamp > lease_dict[ip_address]['expire_timestamp']:`). -/
def leaseStep (fmt : Int → String) (d : List (String × Lease)) (r : Row) :
    List (String × Lease) :=
  if included r then
    let ld := leaseData fmt r
    match dictFind d (rowIp r) with
    | none => dictSet d (rowIp r) ld
    | some old =>
      if old.expire_timestamp < ld.expire_timestamp then dictSet d (rowIp r) ld
      else d
  else d

/-- The `lease_dict` after consuming all rows. -/
def reconcile (fmt : Int → String) (rows : List Row) : List (String × Lease) :=
  rows.foldl (leaseStep fmt) []

/-- Python `s.split('.')` on the character list: `""` yields `[""]`,
adjacent dots yield empty groups, a trailing dot yields a trailing empty
group. -/
def splitDots : List Char → List (List Char)
  | [] => [[]]
  | c :: cs =>
    if c == '.' then [] :: splitDots cs
    else
      match splitDots cs with
      | g :: gs => (c :: g) :: gs
      | [] => [[c]]

/-- `map int` over the dot-separated groups; `none` models the first
raised `ValueError`. -/
def intGroups : List (List Char) → Option (List Int)
  | [] => some []
  | g :: gs =>
    match pyInt (String.mk g) with
    | none => none
    | some n =>
      match intGroups gs with
      | none => none
      | some ns => some (n :: ns)

/-- Python sort key `tuple(map(int, x['ip'].split('.')))`; `none` models
the `ValueError` raised when some dot-separated group is not an integer. -/
def ipSortKey (s : String) : Option (List Int) :=
  intGroups (splitDots s.data)

/-- Python's lexicographic comparison of integer tuples (a shorter tuple
that is a prefix of a longer one compares smaller). -/
def lexLe : List Int → List Int → Bool
  | [], _ => true
  | _ :: _, [] => false
  | a :: as, b :: bs => if a < b then true else if b < a then false else lexLe as bs

/-- Computing the sort keys for all list elements, left to right, before
sorting (as Python's `list.sort(key=...)` does); the first failing key
aborts the whole sort. -/
def decorate (f : α → Option κ) : List α → Option (List (κ × α))
  | [] => some []
  | a :: as =>
    match f a with
    | none => none
    | some k =>
      match decorate f as with
      | none => none
      | some kl => some ((k, a) :: kl)

/-- As `decorate`, for a key function that raises a typed exception. -/
def decorateE (f : α → Except ε κ) : List α → Except ε (List (κ × α))
  | [] => .ok []
  | a :: as =>
    match f a with
    | .error e => .error e
    | .ok k =>
      match decorateE f as with
      | .error e => .error e
      | .ok kl => .ok ((k, a) :: kl)

/-- Core of `read_lease_file` on the parsed rows of an existing file:
reconcile, then sort ascending by the numeric address tuple; a sort-key
failure is caught and converted to `([], readError)`.  Python's
`list.sort` is a stable sort; any stable sort by the same key produces
the same list, so it is modelled by the (stable) insertion sort. -/
def readLeaseFile (fmt : Int → String) (rows : List Row) :
    List Lease × Option LeaseError :=
  let leases := (reconcile fmt rows).map (fun p => p.2)
  match decorate (fun l => ipSortKey l.ip) leases with
  | some kl =>
    ((kl.insertionSort (fun a b => lexLe a.1 b.1 = true)).map (fun p => p.2),
      none)
  | none => ([], some (.readError .valueError))

/-- `read_lease_file` including the `os.path.exists` check; the lease file
is `none` when absent and `some rows` when present with the given parsed
rows. -/
def readLeaseFileOp (fmt : Int → String) (file : Option (List Row)) :
    List Lease × Option LeaseError :=
  match file with
  | none => ([], some .fileNotFound)
  | some rows => readLeaseFile fmt rows

/-- One history entry as appended by `get_lease_history`. -/
structure HistEntry where
  ip : Option String
  mac : Option String
  hostname : Option String
  expire : String
  expire_ts : Option String
  subnet_id : Option String
  state : Option String
  valid_lifetime : Option String
deriving DecidableEq, Repr

/-- The entry built from one matching row (`history.append({...})`). -/
def histEntry (fmt : Int → String) (r : Row) : HistEntry where
  ip := dget r.address ""
  mac := dget r.hwaddr ""
  hostname := dget r.hostname ""
  expire := expireDisplayOf fmt (rowTs r)
  expire_ts := rowTs r
  subnet_id := dget r.subnet_id ""
  state := dget r.state ""
  valid_lifetime := dget r.valid_lifetime ""

/-- The match test `row.get('address') == target_ip`. -/
def matchRow (target : String) (r : Row) : Bool :=
  dgetOpt r.address == some target

/-- The history sort key `int(x.get('expire_ts', '0'))`: the `expire_ts`
key is always present in the entry, so the `'0'` default never applies;
`int(None)` raises `TypeError` and `int` of a non-numeric string raises
`ValueError`. -/
def histKey (e : HistEntry) : Except PyExn Int :=
  match e.expire_ts with
  | none => .error .typeError
  | some s =>
    match pyInt s with
    | some n => .ok n
    | none => .error .valueError

/-- Core of `get_lease_history` on the parsed rows of an existing file:
collect all matching rows in order, then sort descending (stable,
`reverse=True`) by the numeric raw expire value; a key failure is caught
and converted to `([], readError)`. -/
def getLeaseHistory (fmt : Int → String) (rows : List Row) (target : String) :
    List HistEntry × Option LeaseError :=
  let h := rows.foldl
    (fun acc r => if matchRow target r then acc ++ [histEntry fmt r] else acc) []
  match decorateE histKey h with
  | .ok kl =>
    ((kl.insertionSort (fun a b => b.1 ≤ a.1)).map (fun p => p.2), none)
  | .error e => ([], some (.readError e))

/-- `get_lease_history` including the `os.path.exists` check. -/
def getLeaseHistoryOp (fmt : Int → String) (file : Option (List Row))
    (target : String) : List HistEntry × Option LeaseError :=
  match file with
  | none => ([], some .fileNotFound)
  | some rows => getLeaseHistory fmt rows target

/-- The history key the specification describes: numeric `expire`,
with unparseable or missing values read as `0`.
Modelled from the spec: "sorted descending by numeric `expire` value
(unparseable/empty treated as 0, sorting last)". -/
def specHistKey (e : HistEntry) : Int :=
  match e.expire_ts with
  | some s => (pyInt s).getD 0
  | none => 0

/-- The history output the specification claims (used to refute the claim
by comparison with `getLeaseHistory`).
Modelled from the spec: every matching row appears, sorted descending by
`specHistKey`. -/
def claimedHistory (fmt : Int → String) (rows : List Row) (target : String) :
    List HistEntry :=
  ((rows.filter (matchRow target)).map (histEntry fmt)).insertionSort
    (fun a b => specHistKey b ≤ specHistKey a)

/-- JSON values as produced by `json.loads` (numbers restricted to the
integers that appear in subnet ids; floats are not modelled). -/
inductive Json where
  | null
  | bool (b : Bool)
  | num (n : Int)
  | str (s : String)
  | arr (elems : List Json)
  | obj (fields : List (String × Json))
deriving Repr

/-- Python `str(...)` of a JSON value, as applied to a subnet `id`.
Scalars are modelled exactly; container values (which never occur as
subnet ids) are abbreviated. -/
def pyStr : Json → String
  | .null => "None"
  | .bool true => "True"
  | .bool false => "False"
  | .num n => toString n
  | .str s => s
  | .arr _ => "[...]"
  | .obj _ => "\x7b...\x7d"

/-- Python truthiness of a JSON value. -/
def jsonTruthy : Json → Bool
  | .null => false
  | .bool b => b
  | .num n => !(n == 0)
  | .str s => !(s == "")
  | .arr l => !l.isEmpty
  | .obj kvs => !kvs.isEmpty

/-- The loop body of the structured stage of `get_subnet_info`: for each
subnet definition take `str(subnet.get('id', ''))` and
`subnet.get('subnet', '')`, storing the pair when both are truthy.  A
non-dict element makes `subnet.get` raise `AttributeError`, which the
outer `except` turns into returning the mapping accumulated so far. -/
def stage1Loop (acc : List (String × Json)) : List Json → List (String × Json)
  | [] => acc
  | .obj kvs :: rest =>
    let sid := pyStr ((dictFind kvs "id").getD (.str ""))
    let rng := (dictFind kvs "subnet").getD (.str "")
    let acc' := if sid ≠ "" ∧ jsonTruthy rng then dictSet acc sid rng else acc
    stage1Loop acc' rest
  | _ :: _ => acc

/-- Consume the literal `pat` at the head of `s`. -/
def lit : List Char → List Char → Option (List Char)
  | [], s => some s
  | _, [] => none
  | p :: ps, c :: cs => if c == p then lit ps cs else none

/-- Greedy `\d+`: at least one ASCII digit; returns the digits and the
rest. -/
def digits1 (s : List Char) : Option (List Char × List Char) :=
  match s.span Char.isDigit with
  | (ds, rest) => if ds.isEmpty then none else some (ds, rest)

/-- Greedy `[^"]+`: at least one non-quote character. -/
def nonQuote1 (s : List Char) : Option (List Char × List Char) :=
  match s.span (fun c => !(c == '"')) with
  | (ds, rest) => if ds.isEmpty then none else some (ds, rest)

/-- Match `"subnet":\s*"([^"]+)"` exactly at the head of `s`, returning
the capture and the rest after the closing quote. -/
def matchSubnetAt (s : List Char) : Option (String × List Char) :=
  match lit ("\"subnet\":".data) s with
  | none => none
  | some r1 =>
    match lit ['"'] (r1.dropWhile pyWs) with
    | none => none
    | some r2 =>
      match nonQuote1 r2 with
      | none => none
      | some (cap, r3) =>
        match lit ['"'] r3 with
        | none => none
        | some r4 => some (⟨cap⟩, r4)

/-- The lazy `.*?` before the subnet part (with `re.DOTALL`): find the
earliest position at which `matchSubnetAt` succeeds. -/
def findSubnet : List Char → Option (String × List Char)
  | [] => none
  | c :: cs =>
    match matchSubnetAt (c :: cs) with
    | some r => some r
    | none => findSubnet cs

/-- Match `"id":\s*(\d+)` exactly at the head of `s`. -/
def matchIdAt (s : List Char) : Option (String × List Char) :=
  match lit ("\"id\":".data) s with
  | none => none
  | some r1 =>
    match digits1 (r1.dropWhile pyWs) with
    | none => none
    | some (ds, r2) => some (⟨ds⟩, r2)

/-- `re.findall(r'"id":\s*(\d+).*?"subnet":\s*"([^"]+)"', content, re.DOTALL)`:
leftmost non-overlapping matches, scanning resumes after each match.  The
fuel argument bounds the scan by the input length (every step consumes at
least one character). -/
def scanPairs (fuel : Nat) (s : List Char) : List (String × String) :=
  match fuel with
  | 0 => []
  | fuel + 1 =>
    match s with
    | [] => []
    | c :: cs =>
      match matchIdAt (c :: cs) with
      | some (id, r1) =>
        match findSubnet r1 with
        | some (sub, r2) => (id, sub) :: scanPairs fuel r2
        | none => []
      | none => scanPairs fuel cs

/-- The fallback regex extraction over the raw config text. -/
def regexFindall (content : String) : List (String × String) :=
  scanPairs (content.length + 1) content.data

/-- `get_subnet_info`: `parse` stands for `json.loads` (`.error` models a
raised `json.JSONDecodeError`), `file` is the config file content when
the file exists.  Structured stage first; the regex fallback runs only on
a parse failure.  Containment and subscription on non-dict documents
either yield nothing or raise `TypeError` into the outer handler, so any
document not shaped `{Dhcp4: {subnet4: [...]}}` produces the empty
mapping. -/
def getSubnetInfo (parse : String → Except Unit Json) (file : Option String) :
    List (String × Json) :=
  match file with
  | none => []
  | some content =>
    match parse content with
    | .ok (.obj kvs) =>
      match dictFind kvs "Dhcp4" with
      | some (.obj d4) =>
        match dictFind d4 "subnet4" with
        | some (.arr l) => stage1Loop [] l
        | some _ => []
        | none => []
      | some _ => []
      | none => []
    | .ok _ => []
    | .error _ =>
      (regexFindall content).foldl
        (fun acc p => dictSet acc p.1 (Json.str p.2)) []

/-- JSON string escaping as in `json.dumps` (the escapes exercised here;
`\uXXXX` escapes for other control and non-ASCII characters are not
modelled). -/
def jsonEscapeChar (c : Char) : String :=
  if c == '"' then "\\\""
  else if c == '\\' then "\\\\"
  else if c == '\n' then "\\n"
  else if c == '\t' then "\\t"
  else if c == '\r' then "\\r"
  else String.singleton c

def jsonEscape (s : String) : String :=
  s.data.foldl (fun acc c => acc ++ jsonEscapeChar c) ""

/-- Spaces for one indentation level of `json.dumps(..., indent=2)`. -/
def indentStr (n : Nat) : String :=
  String.mk (List.replicate n ' ')

mutual

/-- `json.dumps(j, indent=2)` at nesting depth `ind` (in spaces). -/
def jdump (ind : Nat) : Json → String
  | .null => "null"
  | .bool true => "true"
  | .bool false => "false"
  | .num n => toString n
  | .str s => "\"" ++ jsonEscape s ++ "\""
  | .arr [] => "[]"
  | .arr (x :: xs) =>
    "[\n" ++ jdumpElems (ind + 2) x xs ++ "\n" ++ indentStr ind ++ "]"
  | .obj [] => "\x7b\x7d"
  | .obj ((k, v) :: fs) =>
    "\x7b\n" ++ jdumpFields (ind + 2) k v fs ++ "\n" ++ indentStr ind ++ "\x7d"
termination_by j => sizeOf j

def jdumpElems (ind : Nat) (x : Json) : List Json → String
  | [] => indentStr ind ++ jdump ind x
  | y :: ys => indentStr ind ++ jdump ind x ++ ",\n" ++ jdumpElems ind y ys
termination_by xs => sizeOf x + sizeOf xs

def jdumpFields (ind : Nat) (k : String) (v : Json) :
    List (String × Json) → String
  | [] => indentStr ind ++ "\"" ++ jsonEscape k ++ "\": " ++ jdump ind v
  | (k', v') :: gs =>
    indentStr ind ++ "\"" ++ jsonEscape k ++ "\": " ++ jdump ind v ++ ",\n"
      ++ jdumpFields ind k' v' gs
termination_by fs => sizeOf v + sizeOf fs

end

/-- The `reservation` / `config_snippet` object built by
`generate_reservation_config`: `hw-address` is the lowercased MAC,
`ip-address` the IP unchanged, and `hostname` is added only when truthy. -/
def reservationConfig (ip mac hostname : String) : Json :=
  .obj [("reservations", .arr [.obj
    ([("hw-address", .str (pyLower mac)), ("ip-address", .str ip)] ++
      (if hostname ≠ "" then [("hostname", .str hostname)] else []))])]

/-- The JSON fragment returned by `generate_reservation_config`
(`json.dumps(config_snippet, indent=2)`).  The accompanying instruction
prose (a static template no claim refers to) is not modelled. -/
def generateReservationConfig (ip mac hostname : String) : String :=
  jdump 0 (reservationConfig ip mac hostname)

/-- A fully populated CSV row (all recognized columns present with the
given string values). -/
def fullRow (a hw cid vl ex sid hn st : String) : Row where
  address := some (some a)
  hwaddr := some (some hw)
  client_id := some (some cid)
  valid_lifetime := some (some vl)
  expire := some (some ex)
  subnet_id := some (some sid)
  hostname := some (some hn)
  state := some (some st)

/-- A malformed (short) CSV row: only the leading `address` and `hwaddr`
columns carry values; `DictReader` fills the remaining header columns
with Python `None`. -/
def shortRow (a hw : String) : Row where
  address := some (some a)
  hwaddr := some (some hw)
  client_id := some none
  valid_lifetime := some none
  expire := some none
  subnet_id := some none
  hostname := some none
  state := some none

/-- A concrete timestamp formatter standing for a fixed local timezone,
used to evaluate the model on concrete inputs. -/
def fmt0 : Int → String := fun n => "ts:" ++ toString n

/-- A row that the reconciliation retains for address `addr`: it passes
the filter and its address string is `addr`. -/
def activeFor (addr : String) (r : Row) : Bool :=
  included r && (rowIp r == addr)

/-- The `expire_timestamp`s of the active rows of one address, in row
order. -/
def activeEpochs (addr : String) (rows : List Row) : List Int :=
  (rows.filter (activeFor addr)).map rowEpoch

/-- Non-strict numeric address order between two reconciled leases (both
keys must parse, which holds on every success path). -/
def keyLeB (a b : Lease) : Bool :=
  match ipSortKey a.ip, ipSortKey b.ip with
  | some ka, some kb => lexLe ka kb
  | _, _ => false

/-- Strict numeric address order between two reconciled leases. -/
def keyLtB (a b : Lease) : Bool :=
  match ipSortKey a.ip, ipSortKey b.ip with
  | some ka, some kb => lexLe ka kb && !(ka == kb)
  | _, _ => false

/-- The id/subnet pairs the structured stage extracts from the subnet
definition list, in list order, before duplicate ids collapse. -/
def stage1Entries : List Json → List (String × Json)
  | [] => []
  | .obj kvs :: rest =>
    let sid := pyStr ((dictFind kvs "id").getD (.str ""))
    let rng := (dictFind kvs "subnet").getD (.str "")
    if sid ≠ "" ∧ jsonTruthy rng then (sid, rng) :: stage1Entries rest
    else stage1Entries rest
  | _ :: rest => stage1Entries rest

/-- Whether a JSON value is an object (a Python dict). -/
def isObj : Json → Bool
  | .obj _ => true
  | _ => false

/-! ## Dictionary lemmas -/

theorem dictFind_nil (k : String) : dictFind ([] : List (String × α)) k = none := by
  simp [dictFind]

theorem dictFind_cons (p : String × α) (ps : List (String × α)) (k : String) :
    dictFind (p :: ps) k = if p.1 = k then some p.2 else dictFind ps k := by
  by_cases h : p.1 = k
  · simp [dictFind, List.find?_cons_of_pos, beq_iff_eq, h]
  · simp [dictFind, List.find?_cons_of_neg, beq_iff_eq, h]

theorem dictFind_eq_none_iff (d : List (String × α)) (k : String) :
    dictFind d k = none ↔ k ∉ d.map Prod.fst := by
  induction d with
  | nil => simp [dictFind_nil]
  | cons p ps ih =>
    rw [dictFind_cons]
    by_cases h : p.1 = k <;> simp [h, ih, Ne.symm]

theorem dictFind_dictSet (d : List (String × α)) (k k' : String) (v : α) :
    dictFind (dictSet d k v) k' = if k' = k then some v else dictFind d k' := by
  induction d with
  | nil =>
    simp only [dictSet, dictFind_cons, dictFind_nil]
    by_cases h : k' = k
    · simp [h]
    · simp [h, Ne.symm h]
  | cons p ps ih =>
    simp only [dictSet]
    by_cases hp : p.1 = k
    · simp only [hp, beq_self_eq_true, if_true, dictFind_cons]
      by_cases h : k' = k
      · simp [h, hp]
      · simp [h, hp, Ne.symm h]
    · simp only [beq_iff_eq, hp, if_false, dictFind_cons, ih]
      by_cases hq : p.1 = k'
      · have : ¬k' = k := fun h => hp (hq.trans h)
        simp [hq, this]
      · simp [hq]

theorem mem_dictSet {d : List (String × α)} {k : String} {v : α} {p : String × α}
    (h : p ∈ dictSet d k v) : p ∈ d ∨ p = (k, v) := by
  induction d with
  | nil => simpa [dictSet] using h
  | cons q qs ih =>
    simp only [dictSet] at h
    by_cases hq : q.1 = k
    · simp only [hq, beq_self_eq_true, if_true, List.mem_cons] at h
      rcases h with h | h
      · right; exact h
      · left; exact List.mem_cons_of_mem _ h
    · simp only [beq_iff_eq, hq, if_false, List.mem_cons] at h
      rcases h with h | h
      · left; exact h ▸ List.mem_cons_self _ _
      · rcases ih h with h' | h'
        · left; exact List.mem_cons_of_mem _ h'
        · right; exact h'

theorem keys_dictSet_of_found {d : List (String × α)} {k : String} (v : α)
    (h : dictFind d k ≠ none) :
    (dictSet d k v).map Prod.fst = d.map Prod.fst := by
  induction d with
  | nil => simp [dictFind_nil] at h
  | cons p ps ih =>
    rw [dictFind_cons] at h
    by_cases hp : p.1 = k
    · simp [dictSet, hp]
    · simp only [hp, if_false] at h
      simp only [dictSet, beq_iff_eq, hp, if_false, List.map_cons]
      rw [ih h]

theorem keys_dictSet_of_not_found {d : List (String × α)} {k : String} (v : α)
    (h : dictFind d k = none) :
    (dictSet d k v).map Prod.fst = d.map Prod.fst ++ [k] := by
  induction d with
  | nil => simp [dictSet]
  | cons p ps ih =>
    rw [dictFind_cons] at h
    by_cases hp : p.1 = k
    · simp [hp] at h
    · simp only [hp, if_false] at h
      simp only [dictSet, beq_iff_eq, hp, if_false, List.map_cons]
      rw [ih h]
      simp

theorem nodup_keys_dictSet {d : List (String × α)} {k : String} (v : α)
    (h : (d.map Prod.fst).Nodup) :
    ((dictSet d k v).map Prod.fst).Nodup := by
  rcases hf : dictFind d k with _ | l
  · rw [keys_dictSet_of_not_found v hf]
    have hk : k ∉ d.map Prod.fst := (dictFind_eq_none_iff d k).1 hf
    refine h.append (List.nodup_singleton k) ?_
    intro a ha hb
    rw [List.mem_singleton] at hb
    exact hk (hb ▸ ha)
  · rw [keys_dictSet_of_found v (by simp [hf])]
    exact h

theorem countP_key_eq {d : List (String × α)} (addr : String)
    (h : (d.map Prod.fst).Nodup) :
    d.countP (fun p => p.1 == addr) =
      (if (dictFind d addr).isSome then 1 else 0) := by
  induction d with
  | nil => simp [dictFind_nil]
  | cons p ps ih =>
    simp only [List.map_cons, List.nodup_cons] at h
    rw [dictFind_cons]
    by_cases hp : p.1 = addr
    · have hz : ∀ q ∈ ps, ¬(q.1 == addr) = true := by
        intro q hq hqa
        rw [beq_iff_eq] at hqa
        exact h.1 (hp ▸ hqa ▸ List.mem_map_of_mem Prod.fst hq)
      rw [List.countP_cons_of_pos _ _ (by simp [beq_iff_eq, hp])]
      rw [List.countP_eq_zero.2 hz]
      simp [hp]
    · rw [List.countP_cons_of_neg _ _ (by simp [beq_iff_eq, hp])]
      rw [ih h.2]
      simp [hp]

/-! ## Order lemmas for the numeric address comparison -/

theorem lexLe_refl (a : List Int) : lexLe a a = true := by
  induction a with
  | nil => rfl
  | cons x xs ih => simp [lexLe, lt_irrefl, ih]

theorem lexLe_total (a b : List Int) : lexLe a b = true ∨ lexLe b a = true := by
  induction a generalizing b with
  | nil => left; rfl
  | cons x xs ih =>
    cases b with
    | nil => right; rfl
    | cons y ys =>
      rcases lt_trichotomy x y with h | h | h
      · left; simp [lexLe, h]
      · subst h
        rcases ih ys with h' | h'
        · left; simp [lexLe, lt_irrefl, h']
        · right; simp [lexLe, lt_irrefl, h']
      · right; simp [lexLe, h]

theorem lexLe_trans {a b c : List Int} (h1 : lexLe a b = true)
    (h2 : lexLe b c = true) : lexLe a c = true := by
  induction a generalizing b c with
  | nil => rfl
  | cons x xs ih =>
    cases b with
    | nil => simp [lexLe] at h1
    | cons y ys =>
      cases c with
      | nil => simp [lexLe] at h2
      | cons z zs =>
        by_cases hxy : x < y
        · by_cases hyz : y < z
          · simp [lexLe, lt_trans hxy hyz]
          · by_cases hzy : z < y
            · simp [lexLe, hyz, hzy] at h2
            · have hyzeq : y = z := le_antisymm (not_lt.1 hzy) (not_lt.1 hyz)
              subst hyzeq
              simp [lexLe, hxy]
        · by_cases hyx : y < x
          · simp [lexLe, hxy, hyx] at h1
          · have hxyeq : x = y := le_antisymm (not_lt.1 hyx) (not_lt.1 hxy)
            subst hxyeq
            simp only [lexLe, lt_irrefl, if_false] at h1 h2 ⊢
            by_cases hxz : x < z
            · simp [hxz]
            · by_cases hzx : z < x
              · simp [hxz, hzx] at h2
              · simp only [hxz, hzx, if_false] at h2 ⊢
                exact ih h1 h2

/-! ## Decoration (sort-key) lemmas -/

theorem decorate_eq_some {f : α → Option κ} {l : List α}
    (h : ∀ a ∈ l, (f a).isSome) :
    ∃ kl, decorate f l = some kl ∧ kl.map Prod.snd = l ∧
      ∀ p ∈ kl, f p.2 = some p.1 := by
  induction l with
  | nil => exact ⟨[], rfl, rfl, by simp⟩
  | cons a as ih =>
    rcases Option.isSome_iff_exists.1 (h a (List.mem_cons_self a as)) with ⟨k, hk⟩
    rcases ih (fun b hb => h b (List.mem_cons_of_mem a hb)) with
      ⟨kl, hdec, hmap, hall⟩
    refine ⟨(k, a) :: kl, by simp [decorate, hk, hdec], by simp [hmap], ?_⟩
    intro p hp
    rcases List.mem_cons.1 hp with rfl | hp'
    · exact hk
    · exact hall p hp'

theorem decorate_eq_none {f : α → Option κ} {l : List α}
    (h : ∃ a ∈ l, f a = none) : decorate f l = none := by
  induction l with
  | nil => simp at h
  | cons a as ih =>
    rcases h with ⟨b, hb, hfb⟩
    rcases List.mem_cons.1 hb with rfl | hb'
    · simp [decorate, hfb]
    · cases hfa : f a with
      | none => simp [decorate, hfa]
      | some k => simp [decorate, hfa, ih ⟨b, hb', hfb⟩]

theorem decorateE_eq_ok {f : α → Except ε κ} {l : List α}
    (h : ∀ a ∈ l, ∃ k, f a = .ok k) :
    ∃ kl, decorateE f l = .ok kl ∧ kl.map Prod.snd = l ∧
      ∀ p ∈ kl, f p.2 = .ok p.1 := by
  induction l with
  | nil => exact ⟨[], rfl, rfl, by simp⟩
  | cons a as ih =>
    rcases h a (List.mem_cons_self a as) with ⟨k, hk⟩
    rcases ih (fun b hb => h b (List.mem_cons_of_mem a hb)) with
      ⟨kl, hdec, hmap, hall⟩
    refine ⟨(k, a) :: kl, by simp [decorateE, hk, hdec], by simp [hmap], ?_⟩
    intro p hp
    rcases List.mem_cons.1 hp with rfl | hp'
    · exact hk
    · exact hall p hp'

theorem decorateE_eq_error {f : α → Except ε κ} {l : List α}
    (h : ∃ a ∈ l, ∃ e, f a = .error e) : ∃ e, decorateE f l = .error e := by
  induction l with
  | nil => simp at h
  | cons a as ih =>
    rcases h with ⟨b, hb, e, hfb⟩
    rcases List.mem_cons.1 hb with rfl | hb'
    · exact ⟨e, by simp [decorateE, hfb]⟩
    · cases hfa : f a with
      | error e' => exact ⟨e', by simp [decorateE, hfa]⟩
      | ok k =>
        rcases ih ⟨b, hb', e, hfb⟩ with ⟨e', he'⟩
        exact ⟨e', by simp [decorateE, hfa, he']⟩

/-! ## History accumulation lemmas -/

theorem hist_foldl_eq (fmt : Int → String) (target : String) (rows : List Row)
    (acc : List HistEntry) :
    rows.foldl
        (fun acc r => if matchRow target r then acc ++ [histEntry fmt r] else acc)
        acc =
      acc ++ (rows.filter (matchRow target)).map (histEntry fmt) := by
  induction rows generalizing acc with
  | nil => simp
  | cons r rs ih =>
    by_cases h : matchRow target r
    · simp [h, ih, List.filter_cons, List.append_assoc]
    · simp [h, ih, List.filter_cons]

theorem specHistKey_of_histKey {e : HistEntry} {n : Int}
    (h : histKey e = .ok n) : specHistKey e = n := by
  cases hts : e.expire_ts with
  | none => simp [histKey, hts] at h
  | some s =>
    cases hp : pyInt s with
    | none => simp [histKey, hts, hp] at h
    | some m =>
      simp [histKey, hts, hp] at h
      simp [specHistKey, hts, hp, h]

/-! ## Row-shape lemmas -/

theorem included_address {r : Row} (h : included r = true) :
    ∃ s, r.address = some (some s) ∧ s ≠ "" ∧ rowIp r = s := by
  unfold included at h
  rw [Bool.and_eq_true] at h
  rcases h with ⟨ha, -⟩
  unfold pyTruthy dgetOpt at ha
  cases haddr : r.address with
  | none => rw [haddr] at ha; simp at ha
  | some v =>
    cases v with
    | none => rw [haddr] at ha; simp at ha
    | some s =>
      rw [haddr] at ha
      simp only [Option.join] at ha
      have hs : s ≠ "" := by
        intro hs
        subst hs
        simp at ha
      exact ⟨s, rfl, hs, by simp [rowIp, haddr, dget]⟩

theorem included_state {r : Row} (h : included r = true) :
    dget r.state "0" = some "0" := by
  unfold included at h
  rw [Bool.and_eq_true] at h
  exact beq_iff_eq.1 h.2

theorem leaseData_state_of_included {r : Row} (h : included r = true)
    (fmt : Int → String) : (leaseData fmt r).state = some "0" :=
  included_state h

/-! ## Claim C5: expiry display strings -/

/-- Claim C5: for every processed lease row, in both the snapshot and the
history view, the display expiry string is "No expiration" when the raw
expire field is empty or "0" (with epoch sentinel 0), "Invalid date" when
the field is present but not parseable as an integer epoch (epoch
sentinel 0), and otherwise the formatted local timestamp `fmt n` of the
parsed epoch `n`, deterministically in the fixed-timezone formatter
`fmt`; both views derive their display from the same
`expireDisplayOf`. -/
theorem c5_expire_display (fmt : Int → String) (ts : Option String) :
    ((ts = some "" ∨ ts = some "0") →
      expireDisplayOf fmt ts = "No expiration" ∧ expireEpochOf ts = 0) ∧
    (∀ s, ts = some s → s ≠ "" → s ≠ "0" → pyInt s = none →
      expireDisplayOf fmt ts = "Invalid date" ∧ expireEpochOf ts = 0) ∧
    (∀ s n, ts = some s → s ≠ "0" → pyInt s = some n →
      expireDisplayOf fmt ts = fmt n ∧ expireEpochOf ts = n) ∧
    (∀ r : Row, (leaseData fmt r).expire = expireDisplayOf fmt (rowTs r) ∧
      (leaseData fmt r).expire_timestamp = expireEpochOf (rowTs r) ∧
      (histEntry fmt r).expire = expireDisplayOf fmt (rowTs r)) := by
  refine ⟨?_, ?_, ?_, ?_⟩
  · rintro (rfl | rfl) <;> simp [expireDisplayOf, expireEpochOf]
  · rintro s rfl h0 h1 hp
    simp [expireDisplayOf, expireEpochOf, h0, h1, hp]
  · rintro s n rfl h1 hp
    have h0 : s ≠ "" := by
      rintro rfl
      simp [show pyInt "" = none from by decide] at hp
    simp [expireDisplayOf, expireEpochOf, h0, h1, hp]
  · intro r
    exact ⟨rfl, rfl, rfl⟩

/-- Witness for C5 at concrete raw expire values. -/
theorem c5_expire_display_witness :
    expireDisplayOf fmt0 (some "") = "No expiration" ∧
    (expireDisplayOf fmt0 (some "not-a-number") = "Invalid date" ∧
      expireEpochOf (some "not-a-number") = 0) ∧
    (expireDisplayOf fmt0 (some "1700000000") = fmt0 1700000000 ∧
      expireEpochOf (some "1700000000") = 1700000000) :=
  ⟨((c5_expire_display fmt0 (some "")).1 (Or.inl rfl)).1,
   (c5_expire_display fmt0 (some "not-a-number")).2.1 "not-a-number" rfl
      (by decide) (by decide) (by decide),
   (c5_expire_display fmt0 (some "1700000000")).2.2.1 "1700000000" 1700000000
      rfl (by decide) (by decide)⟩

/-! ## Claim C7: failure modes returned as values -/

/-- Claim C7: a missing lease file makes both operations return an empty
sequence with the distinct file-not-found condition; a read/parse-level
failure of an existing file makes them return an empty sequence with a
generic read-error condition carrying the underlying cause; both
conditions are ordinary return values of total functions, and the two
conditions are distinct. -/
theorem c7_error_values (fmt : Int → String) (target : String) :
    (readLeaseFileOp fmt none = ([], some .fileNotFound) ∧
      getLeaseHistoryOp fmt none target = ([], some .fileNotFound)) ∧
    (∀ rows e, (readLeaseFile fmt rows).2 = some (.readError e) →
      (readLeaseFile fmt rows).1 = []) ∧
    (∀ rows e, (getLeaseHistory fmt rows target).2 = some (.readError e) →
      (getLeaseHistory fmt rows target).1 = []) ∧
    (∀ e, LeaseError.fileNotFound ≠ LeaseError.readError e) := by
  refine ⟨⟨rfl, rfl⟩, ?_, ?_, ?_⟩
  · intro rows e h
    rcases hm : decorate (fun l => ipSortKey l.ip)
        ((reconcile fmt rows).map (fun p => p.2)) with _ | kl <;>
      simp [readLeaseFile, hm] at h ⊢
  · intro rows e h
    rcases hm : decorateE histKey (rows.foldl
        (fun acc r => if matchRow target r then acc ++ [histEntry fmt r] else acc)
        []) with e' | kl <;>
      simp [getLeaseHistory, hm] at h ⊢
  · intro e h
    exact LeaseError.noConfusion h

/-- Witness for C7 at a concrete failing input: a present file holding one
active lease row whose address has a non-numeric group. -/
theorem c7_error_values_witness :
    (readLeaseFileOp fmt0 none = ([], some .fileNotFound) ∧
      getLeaseHistoryOp fmt0 none "10.0.0.9" = ([], some .fileNotFound)) ∧
    (readLeaseFile fmt0 [fullRow "bad-ip" "m" "" "" "5" "1" "" "0"]).1 = [] ∧
    (getLeaseHistory fmt0 [fullRow "10.0.0.9" "m" "" "" "x" "1" "" "0"]
      "10.0.0.9").1 = [] ∧
    LeaseError.fileNotFound ≠ LeaseError.readError .valueError := by
  refine ⟨(c7_error_values fmt0 "10.0.0.9").1, ?_, ?_,
    (c7_error_values fmt0 "10.0.0.9").2.2.2 .valueError⟩
  · exact (c7_error_values fmt0 "10.0.0.9").2.1
      [fullRow "bad-ip" "m" "" "" "5" "1" "" "0"] .valueError (by decide)
  · exact (c7_error_values fmt0 "10.0.0.9").2.2.1
      [fullRow "10.0.0.9" "m" "" "" "x" "1" "" "0"] .valueError (by decide)

/-! ## Claim C9: reservation fragment -/

/-- Claim C9: the reservation object has a reservations list with exactly
one entry, whose hardware-address field is the MAC lowercased verbatim
and whose ip-address field is the IP unmodified; a hostname key is
present exactly when the hostname is non-empty (with the hostname
verbatim); the fragment is the 2-space-indented serialization, shown
concretely on the specification's example values. -/
theorem c9_reservation (ip mac hostname : String) :
    (∃ fields, reservationConfig ip mac hostname =
        .obj [("reservations", .arr [.obj fields])] ∧
      dictFind fields "hw-address" = some (.str (pyLower mac)) ∧
      dictFind fields "ip-address" = some (.str ip) ∧
      dictFind fields "hostname" =
        (if hostname = "" then none else some (.str hostname))) ∧
    generateReservationConfig ip mac hostname =
      jdump 0 (reservationConfig ip mac hostname) ∧
    generateReservationConfig "192.168.20.50" "AA:BB:CC:DD:EE:FF" "" =
      "\x7b\n  \"reservations\": [\n    \x7b\n      \"hw-address\": \"aa:bb:cc:dd:ee:ff\",\n      \"ip-address\": \"192.168.20.50\"\n    \x7d\n  ]\n\x7d" ∧
    generateReservationConfig "192.168.20.50" "AA:BB:CC:DD:EE:FF" "printer" =
      "\x7b\n  \"reservations\": [\n    \x7b\n      \"hw-address\": \"aa:bb:cc:dd:ee:ff\",\n      \"ip-address\": \"192.168.20.50\",\n      \"hostname\": \"printer\"\n    \x7d\n  ]\n\x7d" := by
  refine ⟨?_, rfl, ?_, ?_⟩
  · by_cases h : hostname = ""
    · refine ⟨[("hw-address", .str (pyLower mac)), ("ip-address", .str ip)],
        by simp [reservationConfig, h], ?_, ?_, ?_⟩ <;>
        simp [h, dictFind_cons, dictFind_nil]
    · refine ⟨[("hw-address", .str (pyLower mac)), ("ip-address", .str ip),
        ("hostname", .str hostname)],
        by simp [reservationConfig, h], ?_, ?_, ?_⟩ <;>
        simp [h, dictFind_cons, dictFind_nil]
  · simp [generateReservationConfig, reservationConfig, jdump, jdumpElems,
      jdumpFields]
    decide
  · simp [generateReservationConfig, reservationConfig, jdump, jdumpElems,
      jdumpFields]
    decide

/-! ## Reconciliation invariants -/

theorem decorate_some_inv {f : α → Option κ} :
    ∀ {l : List α} {kl : List (κ × α)}, decorate f l = some kl →
      kl.map Prod.snd = l ∧ ∀ p ∈ kl, f p.2 = some p.1 := by
  intro l
  induction l with
  | nil =>
    intro kl h
    simp only [decorate] at h
    cases h
    exact ⟨rfl, by simp⟩
  | cons a as ih =>
    intro kl h
    simp only [decorate] at h
    cases hfa : f a with
    | none => rw [hfa] at h; cases h
    | some k =>
      rw [hfa] at h
      cases hdec : decorate f as with
      | none => rw [hdec] at h; cases h
      | some kl' =>
        rw [hdec] at h
        cases h
        rcases ih hdec with ⟨hmap, hall⟩
        refine ⟨by simp [hmap], ?_⟩
        intro p hp
        rcases List.mem_cons.1 hp with rfl | hp'
        · exact hfa
        · exact hall p hp'

theorem foldl_leaseStep_mem {fmt : Int → String} {rows : List Row}
    {d : List (String × Lease)} {p : String × Lease}
    (hp : p ∈ rows.foldl (leaseStep fmt) d) :
    p ∈ d ∨ ∃ r ∈ rows, included r = true ∧ p = (rowIp r, leaseData fmt r) := by
  induction rows generalizing d with
  | nil => exact Or.inl hp
  | cons r rs ih =>
    rcases ih (d := leaseStep fmt d r) hp with h | ⟨r', hr', hinc, hpe⟩
    · cases hi : included r with
      | false =>
        simp only [leaseStep, hi, Bool.false_eq_true, if_false] at h
        exact Or.inl h
      | true =>
        simp only [leaseStep, hi, if_true] at h
        rcases hf : dictFind d (rowIp r) with _ | old
        · rw [hf] at h
          rcases mem_dictSet h with h' | h'
          · exact Or.inl h'
          · exact Or.inr ⟨r, List.mem_cons_self r rs, hi, h'⟩
        · rw [hf] at h
          by_cases hcmp : old.expire_timestamp < (leaseData fmt r).expire_timestamp
          · simp only [hcmp, if_true] at h
            rcases mem_dictSet h with h' | h'
            · exact Or.inl h'
            · exact Or.inr ⟨r, List.mem_cons_self r rs, hi, h'⟩
          · simp only [hcmp, if_false] at h
            exact Or.inl h
    · exact Or.inr ⟨r', List.mem_cons_of_mem r hr', hinc, hpe⟩

theorem foldl_leaseStep_nodup {fmt : Int → String} (rows : List Row)
    (d : List (String × Lease)) (h : (d.map Prod.fst).Nodup) :
    ((rows.foldl (leaseStep fmt) d).map Prod.fst).Nodup := by
  induction rows generalizing d with
  | nil => exact h
  | cons r rs ih =>
    refine ih (leaseStep fmt d r) ?_
    cases hi : included r with
    | false => simpa [leaseStep, hi] using h
    | true =>
      simp only [leaseStep, hi, if_true]
      rcases hf : dictFind d (rowIp r) with _ | old
      · exact nodup_keys_dictSet _ h
      · by_cases hcmp : old.expire_timestamp < (leaseData fmt r).expire_timestamp
        · simp only [hcmp, if_true]
          exact nodup_keys_dictSet _ h
        · simpa [hcmp] using h

theorem reconcile_mem {fmt : Int → String} {rows : List Row} {p : String × Lease}
    (hp : p ∈ reconcile fmt rows) :
    ∃ r ∈ rows, included r = true ∧ p = (rowIp r, leaseData fmt r) :=
  (foldl_leaseStep_mem hp).resolve_left (by simp)

theorem reconcile_nodup (fmt : Int → String) (rows : List Row) :
    ((reconcile fmt rows).map Prod.fst).Nodup :=
  foldl_leaseStep_nodup rows [] (by simp)

theorem reconcile_ip {fmt : Int → String} {rows : List Row} {p : String × Lease}
    (hp : p ∈ reconcile fmt rows) : p.2.ip = p.1 := by
  rcases reconcile_mem hp with ⟨r, -, -, rfl⟩
  rfl

theorem readLeaseFile_ok {fmt : Int → String} {rows : List Row}
    {kl : List (List Int × Lease)}
    (hdec : decorate (fun l => ipSortKey l.ip)
      ((reconcile fmt rows).map (fun p => p.2)) = some kl) :
    readLeaseFile fmt rows =
      ((kl.insertionSort (fun a b => lexLe a.1 b.1 = true)).map (fun p => p.2),
        none) := by
  simp [readLeaseFile, hdec]

theorem readLeaseFile_mem {fmt : Int → String} {rows : List Row} {l : Lease}
    (hl : l ∈ (readLeaseFile fmt rows).1) : ∃ p ∈ reconcile fmt rows, l = p.2 := by
  cases hdec : decorate (fun l => ipSortKey l.ip)
      ((reconcile fmt rows).map (fun p => p.2)) with
  | none => simp [readLeaseFile, hdec] at hl
  | some kl =>
    simp only [readLeaseFile, hdec, List.mem_map] at hl
    rcases hl with ⟨q, hq, rfl⟩
    have hq' := (List.perm_insertionSort
      (fun a b : List Int × Lease => lexLe a.1 b.1 = true) kl).mem_iff.1 hq
    have hmap := (decorate_some_inv hdec).1
    have : q.2 ∈ kl.map Prod.snd := List.mem_map_of_mem Prod.snd hq'
    rw [hmap] at this
    rcases List.mem_map.1 this with ⟨p, hp, hpe⟩
    exact ⟨p, hp, hpe.symm⟩

/-! ## Claim C2: history sort order -/

/-- Counterexample to claim C2: a matching row with an empty `expire`
field is not treated as value `0` sorting last — it makes the whole call
return an empty list with a read-error condition, unlike the output the
claim describes (both rows, the empty-expire one last). -/
theorem c2_history_sort_cex :
    getLeaseHistoryOp fmt0
        (some [fullRow "10.0.0.5" "aa" "" "" "100" "1" "" "0",
          fullRow "10.0.0.5" "bb" "" "" "" "1" "" "0"]) "10.0.0.5" =
      ([], some (.readError .valueError)) ∧
    getLeaseHistoryOp fmt0
        (some [fullRow "10.0.0.5" "aa" "" "" "100" "1" "" "0",
          fullRow "10.0.0.5" "bb" "" "" "" "1" "" "0"]) "10.0.0.5" ≠
      ((claimedHistory fmt0
        [fullRow "10.0.0.5" "aa" "" "" "100" "1" "" "0",
          fullRow "10.0.0.5" "bb" "" "" "" "1" "" "0"] "10.0.0.5"), none) ∧
    (claimedHistory fmt0
        [fullRow "10.0.0.5" "aa" "" "" "100" "1" "" "0",
          fullRow "10.0.0.5" "bb" "" "" "" "1" "" "0"] "10.0.0.5").map
      (fun e => (e.mac, e.expire_ts)) =
      [(some "aa", some "100"), (some "bb", some "")] := by
  decide

/-- Claim C2 (amended): whenever every matching row's `expire` field
parses as a Python integer, `get_lease_history` returns without error
and its list is sorted descending by that numeric value; a matching row
with an empty, missing or non-numeric `expire` instead aborts the call
into `([], read error)` (see the counterexample). -/
theorem c2_history_sorted (fmt : Int → String) (rows : List Row)
    (target : String)
    (h : ∀ r ∈ rows, matchRow target r = true →
      ∃ n, histKey (histEntry fmt r) = .ok n) :
    (getLeaseHistory fmt rows target).2 = none ∧
    (getLeaseHistory fmt rows target).1.Pairwise
      (fun a b => specHistKey b ≤ specHistKey a) := by
  have hloop := hist_foldl_eq fmt target rows []
  have hall : ∀ e ∈ (rows.filter (matchRow target)).map (histEntry fmt),
      ∃ n, histKey e = .ok n := by
    intro e he
    rcases List.mem_map.1 he with ⟨r, hr, rfl⟩
    rcases List.mem_filter.1 hr with ⟨hrm, hmr⟩
    exact h r hrm hmr
  rcases decorateE_eq_ok hall with ⟨kl, hdec, hmap, hkeys⟩
  have hres : getLeaseHistory fmt rows target =
      ((kl.insertionSort (fun a b => b.1 ≤ a.1)).map (fun p => p.2), none) := by
    simp only [getLeaseHistory]
    rw [hloop, List.nil_append, hdec]
  rw [hres]
  refine ⟨rfl, ?_⟩
  haveI ht : IsTotal (Int × HistEntry) (fun a b => b.1 ≤ a.1) :=
    ⟨fun a b => le_total b.1 a.1⟩
  haveI htr : IsTrans (Int × HistEntry) (fun a b => b.1 ≤ a.1) :=
    ⟨fun _ _ _ hab hbc => le_trans hbc hab⟩
  have hsorted := List.sorted_insertionSort (fun a b : Int × HistEntry => b.1 ≤ a.1) kl
  rw [List.pairwise_map]
  refine hsorted.imp_of_mem ?_
  intro p q hp hq hle
  have hp' := (List.perm_insertionSort (fun a b : Int × HistEntry => b.1 ≤ a.1) kl).mem_iff.1 hp
  have hq' := (List.perm_insertionSort (fun a b : Int × HistEntry => b.1 ≤ a.1) kl).mem_iff.1 hq
  rw [specHistKey_of_histKey (hkeys p hp'), specHistKey_of_histKey (hkeys q hq')]
  exact hle

/-- Witness for the amended C2 on a concrete history with parseable
expire values. -/
theorem c2_history_sorted_witness :
    (getLeaseHistory fmt0
      [fullRow "10.0.0.5" "aa" "" "" "100" "1" "" "0",
        fullRow "10.0.0.5" "bb" "" "" "200" "1" "" "1"] "10.0.0.5").2 = none ∧
    (getLeaseHistory fmt0
      [fullRow "10.0.0.5" "aa" "" "" "100" "1" "" "0",
        fullRow "10.0.0.5" "bb" "" "" "200" "1" "" "1"] "10.0.0.5").1.Pairwise
      (fun a b => specHistKey b ≤ specHistKey a) := by
  refine c2_history_sorted fmt0 _ "10.0.0.5" ?_
  intro r hr hm
  rcases List.mem_cons.1 hr with rfl | hr'
  · exact ⟨100, rfl⟩
  · rcases List.mem_cons.1 hr' with rfl | h'
    · exact ⟨200, rfl⟩
    · simp at h'

/-! ## Claim C4: state filtering in the two views -/

/-- Counterexample to claim C4: a row of state `"1"` whose address equals
the query does not appear in the history output when its `expire` field
is empty — the whole call returns `([], read error)` instead. -/
theorem c4_state_filter_cex :
    (∃ r ∈ [fullRow "10.0.0.7" "mm" "" "" "" "1" "" "1"],
      matchRow "10.0.0.7" r = true) ∧
    getLeaseHistoryOp fmt0 (some [fullRow "10.0.0.7" "mm" "" "" "" "1" "" "1"])
      "10.0.0.7" = ([], some (.readError .valueError)) := by
  decide

/-- Claim C4 (amended): rows with state other than `"0"` never appear in
the reconciled snapshot — every snapshot record has state `"0"` and
arises from an input row that passed the active filter; the history view
applies no state filtering and no deduplication — its output is a
permutation of the entries of all address-matching rows of any state —
provided every matching row's `expire` parses as an integer (otherwise
the history call fails as in the counterexample). -/
theorem c4_state_filter (fmt : Int → String) (rows : List Row) (target : String) :
    (∀ l ∈ (readLeaseFileOp fmt (some rows)).1,
      l.state = some "0" ∧ ∃ r ∈ rows, included r = true ∧ l = leaseData fmt r) ∧
    ((∀ r ∈ rows, matchRow target r = true →
        ∃ n, histKey (histEntry fmt r) = .ok n) →
      (getLeaseHistory fmt rows target).1.Perm
        ((rows.filter (matchRow target)).map (histEntry fmt))) := by
  constructor
  · intro l hl
    rcases readLeaseFile_mem hl with ⟨p, hp, rfl⟩
    rcases reconcile_mem hp with ⟨r, hr, hinc, rfl⟩
    exact ⟨leaseData_state_of_included hinc fmt, r, hr, hinc, rfl⟩
  · intro h
    have hloop := hist_foldl_eq fmt target rows []
    have hall : ∀ e ∈ (rows.filter (matchRow target)).map (histEntry fmt),
        ∃ n, histKey e = .ok n := by
      intro e he
      rcases List.mem_map.1 he with ⟨r, hr, rfl⟩
      rcases List.mem_filter.1 hr with ⟨hrm, hmr⟩
      exact h r hrm hmr
    rcases decorateE_eq_ok hall with ⟨kl, hdec, hmap, -⟩
    have hres : getLeaseHistory fmt rows target =
        ((kl.insertionSort (fun a b => b.1 ≤ a.1)).map (fun p => p.2), none) := by
      simp only [getLeaseHistory]
      rw [hloop, List.nil_append, hdec]
    rw [hres]
    have h1 : ((kl.insertionSort (fun a b => b.1 ≤ a.1)).map (fun p => p.2)).Perm
        (kl.map (fun p => p.2)) :=
      (List.perm_insertionSort (fun a b : Int × HistEntry => b.1 ≤ a.1) kl).map
        (fun p => p.2)
    have h2 : kl.map (fun p : Int × HistEntry => p.2) =
        (rows.filter (matchRow target)).map (histEntry fmt) := hmap
    rw [← h2]
    exact h1

/-- Witness for the amended C4: one inactive and one active row of the
same address; only the active one survives reconciliation while history
keeps both. -/
theorem c4_state_filter_witness :
    (∀ l ∈ (readLeaseFileOp fmt0
        (some [fullRow "10.0.0.7" "aa" "" "" "50" "1" "" "1",
          fullRow "10.0.0.7" "bb" "" "" "60" "1" "" "0"])).1,
      l.state = some "0" ∧
        ∃ r ∈ [fullRow "10.0.0.7" "aa" "" "" "50" "1" "" "1",
          fullRow "10.0.0.7" "bb" "" "" "60" "1" "" "0"],
          included r = true ∧ l = leaseData fmt0 r) ∧
    (getLeaseHistory fmt0
        [fullRow "10.0.0.7" "aa" "" "" "50" "1" "" "1",
          fullRow "10.0.0.7" "bb" "" "" "60" "1" "" "0"] "10.0.0.7").1.Perm
      (([fullRow "10.0.0.7" "aa" "" "" "50" "1" "" "1",
          fullRow "10.0.0.7" "bb" "" "" "60" "1" "" "0"].filter
        (matchRow "10.0.0.7")).map (histEntry fmt0)) := by
  refine ⟨(c4_state_filter fmt0 _ "10.0.0.7").1,
    (c4_state_filter fmt0 _ "10.0.0.7").2 ?_⟩
  intro r hr hm
  rcases List.mem_cons.1 hr with rfl | hr'
  · exact ⟨50, rfl⟩
  · rcases List.mem_cons.1 hr' with rfl | h'
    · exact ⟨60, rfl⟩
    · simp at h'

/-! ## Claim C6: malformed rows -/

/-- Counterexample to claim C6: a short row (missing columns) whose
address matches the query is fatal to `get_lease_history` — the missing
`expire` value is Python `None`, `int(None)` raises, and the call
returns `([], read error)`; the same input is harmless to
`read_lease_file`. -/
theorem c6_malformed_rows_cex :
    getLeaseHistoryOp fmt0 (some [shortRow "10.0.0.5" "mm"]) "10.0.0.5" =
      ([], some (.readError .typeError)) ∧
    readLeaseFileOp fmt0 (some [shortRow "10.0.0.5" "mm"]) = ([], none) := by
  decide

/-- Claim C6 (amended): malformed rows carry Python `None` (not empty
strings) in their missing fields.  They are never fatal to
`read_lease_file` — any row failing the active filter (in particular a
short row, whose missing state is not `"0"`) can be removed without
changing the result — and not fatal to `get_lease_history` when their
address differs from the query; but a matching row whose `expire` raises
in `int(...)` makes the history call return the empty list with a
read-error condition. -/
theorem c6_malformed_rows (fmt : Int → String) (target : String) :
    (∀ pre post (r : Row), included r = false →
      readLeaseFileOp fmt (some (pre ++ r :: post)) =
        readLeaseFileOp fmt (some (pre ++ post))) ∧
    (∀ pre post (r : Row), matchRow target r = false →
      getLeaseHistoryOp fmt (some (pre ++ r :: post)) target =
        getLeaseHistoryOp fmt (some (pre ++ post)) target) ∧
    (∀ rows, (∃ r ∈ rows, matchRow target r = true ∧
        ∃ e, histKey (histEntry fmt r) = .error e) →
      ∃ e, getLeaseHistory fmt rows target = ([], some (.readError e))) := by
  refine ⟨?_, ?_, ?_⟩
  · intro pre post r hinc
    have H : reconcile fmt (pre ++ r :: post) = reconcile fmt (pre ++ post) := by
      unfold reconcile
      rw [List.foldl_append, List.foldl_append, List.foldl_cons]
      have hstep : leaseStep fmt (List.foldl (leaseStep fmt) [] pre) r =
          List.foldl (leaseStep fmt) [] pre := by
        simp [leaseStep, hinc]
      rw [hstep]
    simp only [readLeaseFileOp, readLeaseFile, H]
  · intro pre post r hm
    have H : (pre ++ r :: post).foldl
        (fun acc r => if matchRow target r then acc ++ [histEntry fmt r] else acc)
        [] =
        (pre ++ post).foldl
        (fun acc r => if matchRow target r then acc ++ [histEntry fmt r] else acc)
        [] := by
      rw [List.foldl_append, List.foldl_append, List.foldl_cons, hm]
      simp
    simp only [getLeaseHistoryOp, getLeaseHistory, H]
  · intro rows hex
    rcases hex with ⟨r, hr, hm, e, he⟩
    have hloop := hist_foldl_eq fmt target rows []
    have hment : histEntry fmt r ∈
        (rows.filter (matchRow target)).map (histEntry fmt) :=
      List.mem_map_of_mem (histEntry fmt) (List.mem_filter.2 ⟨hr, hm⟩)
    rcases decorateE_eq_error ⟨histEntry fmt r, hment, e, he⟩ with ⟨e', he'⟩
    refine ⟨e', ?_⟩
    simp only [getLeaseHistory]
    rw [hloop, List.nil_append, he']

/-- Witness for the amended C6: removing a short inactive row leaves the
snapshot unchanged; removing a non-matching short row leaves the history
unchanged; a matching short row aborts the history call. -/
theorem c6_malformed_rows_witness :
    readLeaseFileOp fmt0
        (some ([fullRow "10.0.0.1" "aa" "" "" "5" "1" "" "0"] ++
          shortRow "10.0.0.5" "mm" :: [])) =
      readLeaseFileOp fmt0
        (some ([fullRow "10.0.0.1" "aa" "" "" "5" "1" "" "0"] ++ [])) ∧
    getLeaseHistoryOp fmt0
        (some ([fullRow "10.0.0.1" "aa" "" "" "5" "1" "" "0"] ++
          shortRow "10.0.0.5" "mm" :: [])) "10.0.0.1" =
      getLeaseHistoryOp fmt0
        (some ([fullRow "10.0.0.1" "aa" "" "" "5" "1" "" "0"] ++ [])) "10.0.0.1" ∧
    ∃ e, getLeaseHistory fmt0 [shortRow "10.0.0.5" "mm"] "10.0.0.5" =
      ([], some (.readError e)) :=
  ⟨(c6_malformed_rows fmt0 "10.0.0.1").1 _ _ _ (by decide),
   (c6_malformed_rows fmt0 "10.0.0.1").2.1 _ _ _ (by decide),
   (c6_malformed_rows fmt0 "10.0.0.5").2.2 _
     ⟨shortRow "10.0.0.5" "mm", List.mem_cons_self _ _, by decide,
       .typeError, rfl⟩⟩

/-! ## Claim C10: sort-key failure is all-or-nothing -/

/-- Counterexample to claim C10: an address that is not exactly four
dot-separated groups does not necessarily make the sort key raise — a
three-group address is accepted (Python compares tuples of any length),
and the lease is returned normally. -/
theorem c10_sort_failure_cex :
    (splitDots ("1.2.3".data)).length = 3 ∧
    readLeaseFileOp fmt0 (some [fullRow "1.2.3" "g" "" "" "5" "1" "" "0"]) =
      ([leaseData fmt0 (fullRow "1.2.3" "g" "" "" "5" "1" "" "0")], none) := by
  decide

/-- Claim C10 (amended): if any retained row's address has a
dot-separated group that does not parse as a Python integer, the sort
key raises, the exception is caught, and the whole call returns the
empty list with a generic read-error condition — one bad row discards
every well-formed lease; when every retained address parses, no such
error occurs.  (A group count other than four does not by itself
raise.) -/
theorem c10_sort_failure (fmt : Int → String) (rows : List Row) :
    ((∃ p ∈ reconcile fmt rows, ipSortKey p.2.ip = none) →
      readLeaseFile fmt rows = ([], some (.readError .valueError))) ∧
    ((∀ p ∈ reconcile fmt rows, (ipSortKey p.2.ip).isSome) →
      (readLeaseFile fmt rows).2 = none) := by
  constructor
  · rintro ⟨p, hp, hkey⟩
    have hdec : decorate (fun l => ipSortKey l.ip)
        ((reconcile fmt rows).map (fun p => p.2)) = none :=
      decorate_eq_none ⟨p.2, List.mem_map_of_mem (fun p => p.2) hp, hkey⟩
    simp [readLeaseFile, hdec]
  · intro h
    have hall : ∀ l ∈ (reconcile fmt rows).map (fun p => p.2),
        (ipSortKey l.ip).isSome := by
      intro l hl
      rcases List.mem_map.1 hl with ⟨p, hp, rfl⟩
      exact h p hp
    rcases decorate_eq_some hall with ⟨kl, hdec, -, -⟩
    simp [readLeaseFile, hdec]

/-- Witness for the amended C10: one unparseable address discards a
well-formed lease; without it the call succeeds. -/
theorem c10_sort_failure_witness :
    readLeaseFile fmt0
        [fullRow "9.0.0.1" "good" "" "" "300" "1" "" "0",
          fullRow "bad" "x" "" "" "1" "1" "" "0"] =
      ([], some (.readError .valueError)) ∧
    (readLeaseFile fmt0 [fullRow "9.0.0.1" "good" "" "" "300" "1" "" "0"]).2 =
      none :=
  ⟨(c10_sort_failure fmt0 _).1 (by decide),
   (c10_sort_failure fmt0 _).2 (by decide)⟩

/-! ## Claim C3: output order by numeric address -/

/-- Counterexample to claim C3: two textually distinct retained addresses
can share one numeric interpretation (a leading zero), so the output is
not strictly ascending by the numeric tuple. -/
theorem c3_addr_sorted_cex :
    (readLeaseFileOp fmt0
        (some [fullRow "1.2.3.4" "a" "" "" "5" "1" "" "0",
          fullRow "01.2.3.4" "b" "" "" "5" "1" "" "0"])).1.map (fun l => l.ip) =
      ["1.2.3.4", "01.2.3.4"] ∧
    ipSortKey "1.2.3.4" = ipSortKey "01.2.3.4" ∧
    ("1.2.3.4" : String) ≠ "01.2.3.4" ∧
    ¬ (readLeaseFileOp fmt0
        (some [fullRow "1.2.3.4" "a" "" "" "5" "1" "" "0",
          fullRow "01.2.3.4" "b" "" "" "5" "1" "" "0"])).1.Pairwise
      (fun a b => keyLtB a b = true) := by
  decide

/-- Claim C3 (amended): the returned sequence is sorted (non-strictly)
ascending by the address read as dot-separated integers compared as
Python tuples; it is strictly ascending whenever distinct retained
address strings have distinct numeric interpretations (which holds for
canonical dotted quads, as in the specification's example), the only
exceptions being textually different addresses with equal numeric
value. -/
theorem c3_addr_sorted (fmt : Int → String) (file : Option (List Row)) :
    (readLeaseFileOp fmt file).1.Pairwise (fun a b => keyLeB a b = true) ∧
    ((∀ a ∈ (readLeaseFileOp fmt file).1, ∀ b ∈ (readLeaseFileOp fmt file).1,
        ipSortKey a.ip = ipSortKey b.ip → a.ip = b.ip) →
      (readLeaseFileOp fmt file).1.Pairwise (fun a b => keyLtB a b = true)) := by
  cases file with
  | none => simp [readLeaseFileOp]
  | some rows =>
    cases hdec : decorate (fun l => ipSortKey l.ip)
        ((reconcile fmt rows).map (fun p => p.2)) with
    | none => simp [readLeaseFileOp, readLeaseFile, hdec]
    | some kl =>
      have hout : (readLeaseFileOp fmt (some rows)).1 =
          (kl.insertionSort (fun a b => lexLe a.1 b.1 = true)).map
            (fun p => p.2) := by
        simp [readLeaseFileOp, readLeaseFile_ok hdec]
      rcases decorate_some_inv hdec with ⟨hmap, hkeys⟩
      haveI ht : IsTotal (List Int × Lease) (fun a b => lexLe a.1 b.1 = true) :=
        ⟨fun a b => lexLe_total a.1 b.1⟩
      haveI htr : IsTrans (List Int × Lease) (fun a b => lexLe a.1 b.1 = true) :=
        ⟨fun _ _ _ hab hbc => lexLe_trans hab hbc⟩
      have hsorted := List.sorted_insertionSort
        (fun a b : List Int × Lease => lexLe a.1 b.1 = true) kl
      have hperm := List.perm_insertionSort
        (fun a b : List Int × Lease => lexLe a.1 b.1 = true) kl
      have hkeys' : ∀ p ∈ kl.insertionSort (fun a b => lexLe a.1 b.1 = true),
          ipSortKey p.2.ip = some p.1 := fun p hp => hkeys p (hperm.mem_iff.1 hp)
      have hle : (readLeaseFileOp fmt (some rows)).1.Pairwise
          (fun a b => keyLeB a b = true) := by
        rw [hout, List.pairwise_map]
        refine hsorted.imp_of_mem ?_
        intro p q hp hq hpq
        simp only [keyLeB, hkeys' p hp, hkeys' q hq]
        exact hpq
      refine ⟨hle, ?_⟩
      intro hinj
      have hnodup : ((kl.insertionSort (fun a b => lexLe a.1 b.1 = true)).map
          (fun p => p.2.ip)).Nodup := by
        rw [(hperm.map (fun p : List Int × Lease => p.2.ip)).nodup_iff]
        have heq : kl.map (fun p : List Int × Lease => p.2.ip) =
            (reconcile fmt rows).map Prod.fst := by
          have h1 : kl.map (fun p : List Int × Lease => p.2.ip) =
              (kl.map Prod.snd).map (fun l => l.ip) := by
            rw [List.map_map]
            rfl
          rw [h1, hmap, List.map_map]
          exact List.map_congr_left (fun p hp => reconcile_ip hp)
        rw [heq]
        exact reconcile_nodup fmt rows
      have hneq : (kl.insertionSort (fun a b => lexLe a.1 b.1 = true)).Pairwise
          (fun p q => p.2.ip ≠ q.2.ip) := List.pairwise_map.mp hnodup
      rw [hout, List.pairwise_map]
      refine (hsorted.and hneq).imp_of_mem ?_
      intro p q hp hq hpq
      rcases hpq with ⟨hle', hne⟩
      simp only [keyLtB, hkeys' p hp, hkeys' q hq]
      have hkne : p.1 ≠ q.1 := by
        intro hkeq
        apply hne
        apply hinj
        · rw [hout]
          exact List.mem_map_of_mem (fun p => p.2) hp
        · rw [hout]
          exact List.mem_map_of_mem (fun p => p.2) hq
        · rw [hkeys' p hp, hkeys' q hq, hkeq]
      simp [hle', hkne]

/-- Witness for the amended C3 on the specification's example addresses:
numeric, not lexicographic, and here strictly ascending. -/
theorem c3_addr_sorted_witness :
    (readLeaseFileOp fmt0
        (some [fullRow "10.0.0.1" "a" "" "" "100" "1" "" "0",
          fullRow "9.0.0.5" "b" "" "" "200" "1" "" "0",
          fullRow "9.0.0.1" "c" "" "" "300" "1" "" "0"])).1.map (fun l => l.ip) =
      ["9.0.0.1", "9.0.0.5", "10.0.0.1"] ∧
    (readLeaseFileOp fmt0
        (some [fullRow "10.0.0.1" "a" "" "" "100" "1" "" "0",
          fullRow "9.0.0.5" "b" "" "" "200" "1" "" "0",
          fullRow "9.0.0.1" "c" "" "" "300" "1" "" "0"])).1.Pairwise
      (fun a b => keyLtB a b = true) :=
  ⟨by decide,
   (c3_addr_sorted fmt0
     (some [fullRow "10.0.0.1" "a" "" "" "100" "1" "" "0",
       fullRow "9.0.0.5" "b" "" "" "200" "1" "" "0",
       fullRow "9.0.0.1" "c" "" "" "300" "1" "" "0"])).2 (by decide)⟩

/-! ## Claim C8: two-stage subnet extraction -/

theorem dictFind_foldl_dictSet (entries : List (String × α)) (k : String) :
    dictFind (entries.foldl (fun acc p => dictSet acc p.1 p.2) []) k =
      (entries.reverse.find? (fun p => p.1 == k)).map (fun p => p.2) := by
  induction entries using List.reverseRecOn with
  | nil => simp [dictFind_nil]
  | append_singleton es p ih =>
    rw [List.foldl_append, List.foldl_cons, List.foldl_nil, List.reverse_append]
    simp only [List.reverse_cons, List.reverse_nil, List.nil_append,
      List.singleton_append]
    by_cases hp : p.1 = k
    · rw [List.find?_cons_of_pos _ (by simp [hp]), dictFind_dictSet,
        if_pos hp.symm]
      rfl
    · rw [List.find?_cons_of_neg _ (by simp [hp]), dictFind_dictSet,
        if_neg (fun h => hp h.symm)]
      exact ih

theorem stage1Loop_eq (l : List Json) (acc : List (String × Json))
    (hobj : ∀ e ∈ l, isObj e = true) :
    stage1Loop acc l =
      (stage1Entries l).foldl (fun acc p => dictSet acc p.1 p.2) acc := by
  induction l generalizing acc with
  | nil => simp [stage1Loop, stage1Entries]
  | cons e rest ih =>
    cases e with
    | obj kvs =>
      have hrest : ∀ e ∈ rest, isObj e = true :=
        fun e he => hobj e (List.mem_cons_of_mem _ he)
      by_cases hc : pyStr ((dictFind kvs "id").getD (.str "")) ≠ "" ∧
          jsonTruthy ((dictFind kvs "subnet").getD (.str ""))
      · simp only [stage1Loop, stage1Entries, if_pos hc]
        rw [ih _ hrest, List.foldl_cons]
      · simp only [stage1Loop, stage1Entries, if_neg hc]
        exact ih _ hrest
    | null => exact absurd (hobj _ (List.mem_cons_self _ _)) (by simp [isObj])
    | bool b => exact absurd (hobj _ (List.mem_cons_self _ _)) (by simp [isObj])
    | num n => exact absurd (hobj _ (List.mem_cons_self _ _)) (by simp [isObj])
    | str s => exact absurd (hobj _ (List.mem_cons_self _ _)) (by simp [isObj])
    | arr xs => exact absurd (hobj _ (List.mem_cons_self _ _)) (by simp [isObj])

/-- Claim C8: `get_subnet_info` first parses the whole content as JSON;
when the document exposes `Dhcp4.subnet4` (a list of subnet objects),
the mapping takes each definition's id coerced to string together with
its subnet value, and a duplicated id keeps the last-produced entry;
only when parsing fails does it fall back to the tolerant regex scan of
the raw text, whose id/subnet pairs are collected in textual order with
the same last-wins rule. -/
theorem c8_subnet_info (parse : String → Except Unit Json) (content : String) :
    (∀ kvs d4 l, parse content = .ok (.obj kvs) →
      dictFind kvs "Dhcp4" = some (.obj d4) →
      dictFind d4 "subnet4" = some (.arr l) →
      (∀ e ∈ l, isObj e = true) →
      ∀ id, dictFind (getSubnetInfo parse (some content)) id =
        ((stage1Entries l).reverse.find? (fun p => p.1 == id)).map
          (fun p => p.2)) ∧
    (parse content = .error () →
      ∀ id, dictFind (getSubnetInfo parse (some content)) id =
        ((regexFindall content).reverse.find? (fun p => p.1 == id)).map
          (fun p => Json.str p.2)) := by
  constructor
  · intro kvs d4 l hp hD hs hobj id
    simp only [getSubnetInfo, hp, hD, hs]
    rw [stage1Loop_eq l [] hobj, dictFind_foldl_dictSet]
  · intro he id
    simp only [getSubnetInfo, he]
    have hfold : (regexFindall content).foldl
        (fun acc p => dictSet acc p.1 (Json.str p.2)) [] =
        ((regexFindall content).map (fun p => (p.1, Json.str p.2))).foldl
          (fun acc p => dictSet acc p.1 p.2) [] := by
      rw [List.foldl_map]
    rw [hfold, dictFind_foldl_dictSet, ← List.map_reverse, List.find?_map]
    rw [Option.map_map]
    rfl

/-- Witness for C8: the structured stage with a duplicated id keeps the
last entry; the fallback stage does the same on raw text. -/
theorem c8_subnet_info_witness :
    dictFind (getSubnetInfo
        (fun _ => .ok (Json.obj [("Dhcp4", Json.obj [("subnet4", Json.arr
          [Json.obj [("id", Json.num 1), ("subnet", Json.str "192.168.1.0/24")],
            Json.obj [("id", Json.num 2), ("subnet", Json.str "10.0.0.0/8")],
            Json.obj [("id", Json.num 1), ("subnet", Json.str "overwrite")]])])]))
        (some "cfg")) "1" = some (Json.str "overwrite") ∧
    dictFind (getSubnetInfo (fun _ => .error ())
        (some "\"id\": 1, \"subnet\": \"dup\" \"id\": 1, \"subnet\": \"dup2\""))
      "1" = some (Json.str "dup2") := by
  constructor
  · have h := (c8_subnet_info
      (fun _ => .ok (Json.obj [("Dhcp4", Json.obj [("subnet4", Json.arr
        [Json.obj [("id", Json.num 1), ("subnet", Json.str "192.168.1.0/24")],
          Json.obj [("id", Json.num 2), ("subnet", Json.str "10.0.0.0/8")],
          Json.obj [("id", Json.num 1), ("subnet", Json.str "overwrite")]])])]))
      "cfg").1 _ _ _ rfl rfl rfl (by decide) "1"
    rw [h]
    rfl
  · have h := (c8_subnet_info (fun _ => .error ())
      "\"id\": 1, \"subnet\": \"dup\" \"id\": 1, \"subnet\": \"dup2\"").2 rfl "1"
    rw [h]
    rfl

/-! ## Claim C1: per-address deduplication -/

theorem dictFind_of_mem_nodup {d : List (String × α)} {k : String} {v : α}
    (hnd : (d.map Prod.fst).Nodup) (hmem : (k, v) ∈ d) :
    dictFind d k = some v := by
  induction d with
  | nil => simp at hmem
  | cons q qs ih =>
    simp only [List.map_cons, List.nodup_cons] at hnd
    rcases List.mem_cons.1 hmem with rfl | hmem'
    · rw [dictFind_cons]
      simp
    · rw [dictFind_cons]
      by_cases hq : q.1 = k
      · exfalso
        exact hnd.1 (hq ▸ List.mem_map_of_mem Prod.fst hmem')
      · simp [hq, ih hnd.2 hmem']

theorem dictFind_leaseStep_ne {fmt : Int → String} {d : List (String × Lease)}
    {r : Row} {addr : String} (hne : rowIp r ≠ addr) :
    dictFind (leaseStep fmt d r) addr = dictFind d addr := by
  have hne' : addr ≠ rowIp r := fun h => hne h.symm
  cases hi : included r with
  | false => simp [leaseStep, hi]
  | true =>
    simp only [leaseStep, hi, if_true]
    rcases hf : dictFind d (rowIp r) with _ | old
    · rw [dictFind_dictSet]
      simp [hne']
    · by_cases hcmp : old.expire_timestamp < (leaseData fmt r).expire_timestamp
      · simp only [hcmp, if_true]
        rw [dictFind_dictSet]
        simp [hne']
      · simp [hcmp]

theorem activeEpochs_append (addr : String) (rows : List Row) (r : Row) :
    activeEpochs addr (rows ++ [r]) =
      activeEpochs addr rows ++
        (if activeFor addr r = true then [rowEpoch r] else []) := by
  unfold activeEpochs
  rw [List.filter_append, List.map_append]
  cases h : activeFor addr r <;> simp [List.filter_cons, h]

theorem rowEpoch_mem_activeEpochs {addr : String} {r : Row} {rows : List Row}
    (hr : r ∈ rows) (ha : activeFor addr r = true) :
    rowEpoch r ∈ activeEpochs addr rows :=
  List.mem_map_of_mem rowEpoch (List.mem_filter.2 ⟨hr, ha⟩)

/-- Characterization of the entry the reconciliation dictionary holds for
one address: it is absent exactly when the address has no active row,
and otherwise it is the lease of the earliest row attaining the maximal
`expire_timestamp` among the address's active rows. -/
theorem reconcile_char (fmt : Int → String) (addr : String) (rows : List Row) :
    (dictFind (reconcile fmt rows) addr = none →
      ∀ r ∈ rows, activeFor addr r = false) ∧
    (∀ l, dictFind (reconcile fmt rows) addr = some l →
      ∃ b, b ∈ rows ∧ activeFor addr b = true ∧ l = leaseData fmt b ∧
        (∀ x ∈ activeEpochs addr rows, x ≤ rowEpoch b) ∧
        rows.find? (fun r => activeFor addr r && (rowEpoch r == rowEpoch b)) =
          some b) := by
  induction rows using List.reverseRecOn with
  | nil =>
    constructor
    · intro _ r hr
      simp at hr
    · intro l hl
      simp [reconcile, dictFind_nil] at hl
  | append_singleton rows r ih =>
    have hrec : reconcile fmt (rows ++ [r]) =
        leaseStep fmt (reconcile fmt rows) r := by
      unfold reconcile
      rw [List.foldl_append, List.foldl_cons, List.foldl_nil]
    rcases ih with ⟨ihnone, ihsome⟩
    cases hact : activeFor addr r with
    | false =>
      have hfind : dictFind (reconcile fmt (rows ++ [r])) addr =
          dictFind (reconcile fmt rows) addr := by
        rw [hrec]
        by_cases hi : included r = true
        · have hne : rowIp r ≠ addr := by
            intro h
            unfold activeFor at hact
            rw [hi, h] at hact
            simp at hact
          exact dictFind_leaseStep_ne hne
        · simp [leaseStep, hi]
      constructor
      · intro hnone r' hr'
        rw [hfind] at hnone
        rcases List.mem_append.1 hr' with hr' | hr'
        · exact ihnone hnone r' hr'
        · rw [List.mem_singleton.1 hr']
          exact hact
      · intro l hl
        rw [hfind] at hl
        rcases ihsome l hl with ⟨b, hb, hba, hlb, hmax, hfindb⟩
        refine ⟨b, List.mem_append_left _ hb, hba, hlb, ?_, ?_⟩
        · rw [activeEpochs_append, hact]
          intro x hx
          rcases List.mem_append.1 hx with hx | hx
          · exact hmax x hx
          · simp at hx
        · rw [List.find?_append, hfindb]
          rfl
    | true =>
      have hinc : included r = true := by
        unfold activeFor at hact
        exact (Bool.and_eq_true _ _ ▸ hact).1
      have hip : rowIp r = addr := by
        unfold activeFor at hact
        exact beq_iff_eq.1 (Bool.and_eq_true _ _ ▸ hact).2
      rcases hf : dictFind (reconcile fmt rows) addr with _ | old
      · have hnew : dictFind (reconcile fmt (rows ++ [r])) addr =
            some (leaseData fmt r) := by
          rw [hrec]
          simp only [leaseStep, hinc, if_true, hip, hf]
          rw [dictFind_dictSet]
          simp
        have hallf : ∀ r' ∈ rows, activeFor addr r' = false := ihnone hf
        have hemp : activeEpochs addr rows = [] := by
          unfold activeEpochs
          rw [List.filter_eq_nil_iff.2 (fun x hx => by simp [hallf x hx])]
          rfl
        constructor
        · intro hnone
          rw [hnew] at hnone
          simp at hnone
        · intro l hl
          rw [hnew] at hl
          have hle : l = leaseData fmt r := (Option.some_inj.1 hl).symm
          subst hle
          refine ⟨r, List.mem_append_right _ (List.mem_singleton_self r), hact,
            rfl, ?_, ?_⟩
          · rw [activeEpochs_append, hact, hemp]
            intro x hx
            simp only [if_true, List.nil_append, List.mem_singleton] at hx
            rw [hx]
          · rw [List.find?_append]
            have hnone : rows.find?
                (fun r' => activeFor addr r' && (rowEpoch r' == rowEpoch r)) =
                none :=
              List.find?_eq_none.2 (fun x hx => by simp [hallf x hx])
            rw [hnone]
            simp [List.find?_cons, hact]
      · rcases ihsome old hf with ⟨b, hb, hba, hob, hmax, hfindb⟩
        have hoepoch : old.expire_timestamp = rowEpoch b := by
          rw [hob]
          rfl
        by_cases hcmp : old.expire_timestamp < (leaseData fmt r).expire_timestamp
        · have hepoch : rowEpoch b < rowEpoch r := by
            rw [hoepoch] at hcmp
            exact hcmp
          have hnew : dictFind (reconcile fmt (rows ++ [r])) addr =
              some (leaseData fmt r) := by
            rw [hrec]
            simp only [leaseStep, hinc, if_true, hip, hf, hcmp, if_true]
            rw [dictFind_dictSet]
            simp
          constructor
          · intro hnone
            rw [hnew] at hnone
            simp at hnone
          · intro l hl
            rw [hnew] at hl
            have hle : l = leaseData fmt r := (Option.some_inj.1 hl).symm
            subst hle
            refine ⟨r, List.mem_append_right _ (List.mem_singleton_self r),
              hact, rfl, ?_, ?_⟩
            · rw [activeEpochs_append, hact]
              intro x hx
              rcases List.mem_append.1 hx with hx | hx
              · exact le_trans (hmax x hx) (le_of_lt hepoch)
              · simp only [if_true, List.mem_singleton] at hx
                rw [hx]
            · rw [List.find?_append]
              have hnone : rows.find?
                  (fun r' => activeFor addr r' && (rowEpoch r' == rowEpoch r)) =
                  none := by
                refine List.find?_eq_none.2 (fun x hx hpx => ?_)
                rw [Bool.and_eq_true] at hpx
                have hxact : activeFor addr x = true := hpx.1
                have hxep : rowEpoch x = rowEpoch r := beq_iff_eq.1 hpx.2
                have : rowEpoch x ≤ rowEpoch b :=
                  hmax _ (rowEpoch_mem_activeEpochs hx hxact)
                rw [hxep] at this
                exact absurd hepoch (not_lt.2 this)
              rw [hnone]
              simp [List.find?_cons, hact]
        · have hnew : dictFind (reconcile fmt (rows ++ [r])) addr = some old := by
            rw [hrec]
            simp only [leaseStep, hinc, if_true, hip, hf, hcmp, if_false]
          have hrle : rowEpoch r ≤ rowEpoch b := by
            rw [hoepoch] at hcmp
            exact not_lt.1 hcmp
          constructor
          · intro hnone
            rw [hnew] at hnone
            simp at hnone
          · intro l hl
            rw [hnew] at hl
            have hle : l = old := (Option.some_inj.1 hl).symm
            subst hle
            refine ⟨b, List.mem_append_left _ hb, hba, hob, ?_, ?_⟩
            · rw [activeEpochs_append, hact]
              intro x hx
              rcases List.mem_append.1 hx with hx | hx
              · exact hmax x hx
              · simp only [if_true, List.mem_singleton] at hx
                rw [hx]
                exact hrle
            · rw [List.find?_append, hfindb]
              rfl

/-- Claim C1: on every successful call (no read error), for each address
with at least one active (`state == "0"`) row, exactly one record is
returned; its `expire_timestamp` is the numerically greatest epoch among
that address's active rows (it is an attained upper bound of
`activeEpochs`), and the retained record is built from the
earliest-occurring row attaining that maximum — a later row with an equal
or smaller epoch never replaces it, as expressed by `List.find?`
returning that row for the first-row-with-maximal-epoch predicate. -/
theorem c1_dedup (fmt : Int → String) (rows : List Row) (addr : String)
    (hact : ∃ r ∈ rows, activeFor addr r = true)
    (hok : (readLeaseFile fmt rows).2 = none) :
    (readLeaseFile fmt rows).1.countP (fun l => l.ip == addr) = 1 ∧
    ∃ b ∈ rows, activeFor addr b = true ∧
      rowEpoch b ∈ activeEpochs addr rows ∧
      (∀ x ∈ activeEpochs addr rows, x ≤ rowEpoch b) ∧
      rows.find? (fun r => activeFor addr r && (rowEpoch r == rowEpoch b)) =
        some b ∧
      ∀ l ∈ (readLeaseFile fmt rows).1, l.ip = addr →
        l = leaseData fmt b ∧ l.expire_timestamp = rowEpoch b := by
  rcases hfd : dictFind (reconcile fmt rows) addr with _ | entry
  · exfalso
    rcases hact with ⟨r, hr, ha⟩
    have := (reconcile_char fmt addr rows).1 hfd r hr
    rw [this] at ha
    cases ha
  · rcases (reconcile_char fmt addr rows).2 entry hfd with
      ⟨b, hb, hba, hentry, hmax, hfindb⟩
    cases hdec : decorate (fun l => ipSortKey l.ip)
        ((reconcile fmt rows).map (fun p => p.2)) with
    | none => simp [readLeaseFile, hdec] at hok
    | some kl =>
      have hout : (readLeaseFile fmt rows).1 =
          (kl.insertionSort (fun a b => lexLe a.1 b.1 = true)).map
            (fun p => p.2) := by
        rw [readLeaseFile_ok hdec]
      have hmapkl : kl.map (fun p : List Int × Lease => p.2) =
          (reconcile fmt rows).map (fun p => p.2) := (decorate_some_inv hdec).1
      have hperm : ((readLeaseFile fmt rows).1).Perm
          ((reconcile fmt rows).map (fun p => p.2)) := by
        rw [hout, ← hmapkl]
        exact (List.perm_insertionSort
          (fun a b : List Int × Lease => lexLe a.1 b.1 = true) kl).map
          (fun p => p.2)
      constructor
      · rw [hperm.countP_eq, List.countP_map]
        have hcong : ((reconcile fmt rows).countP
            (fun p => ((fun l => l.ip == addr) ∘ (fun p => p.2)) p)) =
            ((reconcile fmt rows).countP (fun p => p.1 == addr)) := by
          refine List.countP_congr ?_
          intro p hp
          simp only [Function.comp]
          rw [reconcile_ip hp]
        rw [hcong, countP_key_eq addr (reconcile_nodup fmt rows), hfd]
        rfl
      · refine ⟨b, hb, hba, ?_, hmax, hfindb, ?_⟩
        · unfold activeFor at hba
          rw [Bool.and_eq_true] at hba
          exact rowEpoch_mem_activeEpochs
            (by exact hb) (by unfold activeFor; rw [Bool.and_eq_true]; exact hba)
        · intro l hl hlip
          rcases readLeaseFile_mem hl with ⟨p, hp, rfl⟩
          have hkey : p.1 = addr := by
            rw [← reconcile_ip hp]
            exact hlip
          have hpm : (addr, p.2) ∈ reconcile fmt rows := by
            rw [← hkey]
            exact hp
          have hfd2 := dictFind_of_mem_nodup (reconcile_nodup fmt rows) hpm
          rw [hfd] at hfd2
          have hpe : p.2 = entry := (Option.some_inj.1 hfd2).symm
          rw [hpe, hentry]
          exact ⟨rfl, rfl⟩

/-- Witness for C1: three active rows of one address (two tied at the
maximal epoch 300, one lower) plus one other address; the tie keeps the
first row. -/
theorem c1_dedup_witness :
    (readLeaseFile fmt0
        [fullRow "10.0.0.5" "first" "" "" "300" "1" "" "0",
          fullRow "10.0.0.5" "second" "" "" "300" "1" "" "0",
          fullRow "10.0.0.5" "third" "" "" "200" "1" "" "0",
          fullRow "10.0.0.9" "other" "" "" "100" "1" "" "0"]).1.countP
      (fun l => l.ip == "10.0.0.5") = 1 ∧
    ∃ b ∈ [fullRow "10.0.0.5" "first" "" "" "300" "1" "" "0",
        fullRow "10.0.0.5" "second" "" "" "300" "1" "" "0",
        fullRow "10.0.0.5" "third" "" "" "200" "1" "" "0",
        fullRow "10.0.0.9" "other" "" "" "100" "1" "" "0"],
      activeFor "10.0.0.5" b = true ∧
      rowEpoch b ∈ activeEpochs "10.0.0.5"
        [fullRow "10.0.0.5" "first" "" "" "300" "1" "" "0",
          fullRow "10.0.0.5" "second" "" "" "300" "1" "" "0",
          fullRow "10.0.0.5" "third" "" "" "200" "1" "" "0",
          fullRow "10.0.0.9" "other" "" "" "100" "1" "" "0"] ∧
      (∀ x ∈ activeEpochs "10.0.0.5"
          [fullRow "10.0.0.5" "first" "" "" "300" "1" "" "0",
            fullRow "10.0.0.5" "second" "" "" "300" "1" "" "0",
            fullRow "10.0.0.5" "third" "" "" "200" "1" "" "0",
            fullRow "10.0.0.9" "other" "" "" "100" "1" "" "0"],
        x ≤ rowEpoch b) ∧
      [fullRow "10.0.0.5" "first" "" "" "300" "1" "" "0",
        fullRow "10.0.0.5" "second" "" "" "300" "1" "" "0",
        fullRow "10.0.0.5" "third" "" "" "200" "1" "" "0",
        fullRow "10.0.0.9" "other" "" "" "100" "1" "" "0"].find?
        (fun r => activeFor "10.0.0.5" r && (rowEpoch r == rowEpoch b)) =
        some b ∧
      ∀ l ∈ (readLeaseFile fmt0
          [fullRow "10.0.0.5" "first" "" "" "300" "1" "" "0",
            fullRow "10.0.0.5" "second" "" "" "300" "1" "" "0",
            fullRow "10.0.0.5" "third" "" "" "200" "1" "" "0",
            fullRow "10.0.0.9" "other" "" "" "100" "1" "" "0"]).1,
        l.ip = "10.0.0.5" → l = leaseData fmt0 b ∧
          l.expire_timestamp = rowEpoch b :=
  c1_dedup fmt0
    [fullRow "10.0.0.5" "first" "" "" "300" "1" "" "0",
      fullRow "10.0.0.5" "second" "" "" "300" "1" "" "0",
      fullRow "10.0.0.5" "third" "" "" "200" "1" "" "0",
      fullRow "10.0.0.9" "other" "" "" "100" "1" "" "0"] "10.0.0.5"
    (by decide) (by decide)

end KeaLease
